import Mathlib

set_option maxRecDepth 400000
set_option maxHeartbeats 1000000

/-!
# Verification of the `dandelifeon` repository

A shallow embedding of the two core modules of the repository:

* `src/simulation.rs` — the bit-packed 25×25 Dandelifeon board (`PetriDish`),
  its modified Game-of-Life step (`reduce_cells`), and scoring (`score`, `play`);
* `src/bees.rs` — the generic bees-algorithm optimization engine
  (`Colony`, `Scout`, `FlowerPatch` and the run loop `bees`).

Machine integers (`u64` rows, `u8` coordinates, `u16` scores, `usize` radii)
are modelled as `Nat`.  This is exact for this code: every shift performed on a
row is `(value < 4) <<< (2*x)` with `x < 25`, so the shifted value occupies
bits `< 50 < 64` and never overflows a `u64`; coordinate arithmetic is bounded
by 26; the score is bounded by `8 * 100 * 60 < 2^16`; `usize` subtraction in
the radius shrink is `r - r/10*2` with `r/10*2 ≤ r`, so it never underflows
and `Nat` truncated subtraction agrees.  The `u8` decrement `checked_sub`
is modelled by an explicit `Option`, exactly as in the source.
-/

namespace Dandelifeon

/-! ## Cell state constants (from `enum Cell` and its `u8` constants) -/

namespace Cell

/-- `Cell::Dead as u8`. -/
def DEAD : Nat := 0

/-- `Cell::Living as u8`. -/
def LIVING : Nat := 1

/-- `Cell::Blocked as u8`. -/
def BLOCKED : Nat := 2

/-- `Cell::Dandelifeon as u8`. -/
def DANDELIFEON : Nat := 3

end Cell

/-- `u8::checked_sub`: `none` signals the underflow that the source treats as
an explicit "no value" (out-of-bounds) coordinate. -/
def checkedSub (n k : Nat) : Option Nat :=
  if k ≤ n then some (n - k) else none

/-- The result of running a step of the game (`enum Status`).  The source
spells the third constructor `AbrubtEnd`; its `Display` instance prints
`AbruptEnd`. -/
inductive Status where
  | Continue
  | NormalEnd
  | AbrubtEnd
deriving DecidableEq, Repr

/-- The `u8` representation of a `Status` (`Status as u8`, from `#[repr(u8)]`
with `Continue = 0`, `NormalEnd = 1`, `AbrubtEnd = 2`). -/
def Status.toNat : Status → Nat
  | .Continue => 0
  | .NormalEnd => 1
  | .AbrubtEnd => 2

/-- `PetriDish([u64; 25])`: one word per row, 2 bits per column.  The fixed
array length of the Rust type is carried as an invariant. -/
structure PetriDish where
  rows : List Nat
  length_eq : rows.length = 25

instance : DecidableEq PetriDish := fun a b =>
  if h : a.rows = b.rows then
    .isTrue (by cases a; cases b; cases h; rfl)
  else
    .isFalse (fun hh => h (congrArg PetriDish.rows hh))

/-- Replace row `y` (plumbing for `self.0[y] = …`; the length invariant is
preserved by `List.length_set`). -/
def PetriDish.setRow (d : PetriDish) (y v : Nat) : PetriDish :=
  ⟨d.rows.set y v, by rw [List.length_set]; exact d.length_eq⟩

/-- `PetriDish::read`: the cell at `(x, y)` as a `u8`; out-of-bounds reads
`Cell::Dead`. -/
def PetriDish.read (d : PetriDish) (x y : Nat) : Nat :=
  if x < 25 ∧ y < 25 then (d.rows.getD y 0 >>> (2 * x)) &&& 3 else 0

/-- `PetriDish::read_maybe_x`: like `read`, but the x coordinate may be
`none` (an underflow that would have been out of bounds). -/
def PetriDish.read_maybe_x (d : PetriDish) (x : Option Nat) (y : Nat) : Nat :=
  match x with
  | some x => if x < 25 ∧ y < 25 then (d.rows.getD y 0 >>> (2 * x)) &&& 3 else 0
  | none => 0

/-- `PetriDish::read_maybe_y`. -/
def PetriDish.read_maybe_y (d : PetriDish) (x : Nat) (y : Option Nat) : Nat :=
  match y with
  | some y => if x < 25 ∧ y < 25 then (d.rows.getD y 0 >>> (2 * x)) &&& 3 else 0
  | none => 0

/-- `PetriDish::read_maybe_x_y`. -/
def PetriDish.read_maybe_x_y (d : PetriDish) (x y : Option Nat) : Nat :=
  match x, y with
  | some x, some y =>
      if x < 25 ∧ y < 25 then (d.rows.getD y 0 >>> (2 * x)) &&& 3 else 0
  | _, _ => 0

/-- `PetriDish::write_assume_clean_slate`: or the value into the target slot,
assuming the slot currently reads `Cell::Dead`. -/
def PetriDish.write_assume_clean_slate (d : PetriDish) (x y value : Nat) :
    PetriDish :=
  d.setRow y (d.rows.getD y 0 ||| (value <<< (x * 2)))

/-- `PetriDish::set_dead`: clear the slot by xor-ing out the bits it currently
holds. -/
def PetriDish.set_dead (d : PetriDish) (x y : Nat) : PetriDish :=
  d.setRow y (d.rows.getD y 0 ^^^ (d.read x y <<< (2 * x)))

/-- `PetriDish::write`: clear then set the target cell. -/
def PetriDish.write (d : PetriDish) (x y value : Nat) : PetriDish :=
  let d1 := d.set_dead x y
  d1.setRow y (d1.rows.getD y 0 ||| (value <<< (x * 2)))

/-- `PetriDish::set_living`. -/
def PetriDish.set_living (d : PetriDish) (x y : Nat) : PetriDish :=
  let d1 := d.set_dead x y
  d1.setRow y (d1.rows.getD y 0 ||| (Cell.LIVING <<< (2 * x)))

/-- `PetriDish::set_blocked`. -/
def PetriDish.set_blocked (d : PetriDish) (x y : Nat) : PetriDish :=
  let d1 := d.set_dead x y
  d1.setRow y (d1.rows.getD y 0 ||| (Cell.BLOCKED <<< (2 * x)))

/-- `PetriDish::set_dandelifeon`: or `Cell::Dandelifeon` into `(12, 12)`. -/
def PetriDish.set_dandelifeon (d : PetriDish) : PetriDish :=
  d.setRow 12 (d.rows.getD 12 0 ||| (Cell.DANDELIFEON <<< (2 * 12)))

/-- `PetriDish::new`: all cells `Cell::Dead` except the `Cell::Dandelifeon`. -/
def PetriDish.new : PetriDish :=
  PetriDish.set_dandelifeon ⟨List.replicate 25 0, by simp⟩

/-- `PetriDish::reduce_local_asm`: next state of one cell from its current
state and its 8 neighbors. -/
def PetriDish.reduce_local_asm (center : Nat) (neighbors : List Nat) : Nat :=
  let count_neighbors : Nat :=
    neighbors.foldl
      (fun acc number => acc + (if number == Cell.LIVING then 1 else 0)) 0
  let center_alive : Bool := center == Cell.LIVING
  let center_dead : Bool := center == Cell.DEAD
  let dandelifeon : Bool := center == Cell.DANDELIFEON
  let blocked : Bool := center == Cell.BLOCKED
  let three_living_neighbors : Bool := count_neighbors == 3
  let two_living_neighbors : Bool := count_neighbors == 2
  let next_alive : Bool :=
    (center_alive && (three_living_neighbors || two_living_neighbors)) ||
      (center_dead && three_living_neighbors)
  let blocked_or_dandelifeon : Bool := dandelifeon || blocked
  let alive_or_dandelifeon : Bool := next_alive || dandelifeon
  ((if blocked_or_dandelifeon then 1 else 0) <<< 1) |||
    (if alive_or_dandelifeon then 1 else 0)

/-- The 8-neighborhood reads of `(x, y)`, in exactly the order the source
builds its `neighbors` / `dandelifeon_neighbors` arrays (underflowing
coordinates go through `checked_sub` and the `read_maybe_*` readers). -/
def PetriDish.neighborsOf (d : PetriDish) (x y : Nat) : List Nat :=
  [d.read (x + 1) y,
   d.read_maybe_x (checkedSub x 1) y,
   d.read_maybe_y x (checkedSub y 1),
   d.read_maybe_y (x + 1) (checkedSub y 1),
   d.read_maybe_x_y (checkedSub x 1) (checkedSub y 1),
   d.read x (y + 1),
   d.read (x + 1) (y + 1),
   d.read_maybe_x (checkedSub x 1) (y + 1)]

/-- The `new_cell` value `reduce_cells` computes for cell `(x, y)`:
`reduce_local_asm` applied to the cell's current state and its 8 neighbor
reads. -/
def PetriDish.nextCell (d : PetriDish) (x y : Nat) : Nat :=
  let center := d.read x y
  PetriDish.reduce_local_asm center (d.neighborsOf x y)

/-- Body of the nested `while` loops of `PetriDish::reduce_cells`: process
cell `(x, y)`, writing its next state into the accumulated fresh board and
flagging `NormalEnd` if a cell of the 3×3 hazard block computes as living. -/
def PetriDish.cellStep (d : PetriDish) (acc : PetriDish × Status) (x y : Nat) :
    PetriDish × Status :=
  let new_cell := d.nextCell x y
  let game_over :=
    if new_cell = Cell.LIVING ∧ (11 ≤ x ∧ x < 14) ∧ 11 ≤ y ∧ y < 14 then
      Status.NormalEnd
    else acc.2
  (acc.1.write_assume_clean_slate x y new_cell, game_over)

/-- `PetriDish::reduce_cells`: one step of the game.  If any of the 8 cells
adjacent to the Dandelifeon is living, the step aborts with the unmodified
board; otherwise every cell is recomputed into a fresh board. -/
def PetriDish.reduce_cells (d : PetriDish) : PetriDish × Status :=
  if (d.neighborsOf 12 12).any (fun dangerous_cell =>
      dangerous_cell == Cell.LIVING) then
    (d, Status.AbrubtEnd)
  else
    (List.range 25).foldl
      (fun acc y =>
        (List.range 25).foldl (fun acc2 x => d.cellStep acc2 x y) acc)
      (PetriDish.new, Status.Continue)

/-- `PetriDish::score`: fold over the 8 Dandelifeon-adjacent cells; each
living one contributes `age * 60` mana. -/
def PetriDish.score (d : PetriDish) (age : Nat) : Nat :=
  (d.neighborsOf 12 12).foldl
    (fun mana dangerous_cell =>
      if dangerous_cell == Cell.LIVING then mana + age * 60 else mana) 0

/-- The loop of `PetriDish::play`, with the (provably sufficient) structural
fuel `102`: the source loop runs at most 102 iterations before the
`iters > 101` cutoff fires. -/
def PetriDish.playAux : Nat → PetriDish → Nat → Nat
  | 0, _, _ => 0
  | fuel + 1, d, iters =>
    let r := d.reduce_cells
    let iters1 := iters + 1
    if r.2.toNat > 0 then
      r.1.score (min (iters1 - (r.2.toNat - 1)) 100)
    else if iters1 > 101 then 0
    else PetriDish.playAux fuel r.1 iters1

/-- `PetriDish::play`: run the simulation until the game ends (or the
iteration cutoff), returning the mana generated. -/
def PetriDish.play (d : PetriDish) : Nat :=
  PetriDish.playAux 102 d 0

/-- Board after `k` steps, paired with the status returned by the `k`-th step
(`Continue` for `k = 0`). -/
def PetriDish.stepIter (d : PetriDish) : Nat → PetriDish × Status
  | 0 => (d, Status.Continue)
  | k + 1 => (d.stepIter k).1.reduce_cells

/-- Number of `Cell::Living` values among the 8-neighborhood reads of
`(x, y)`. -/
def PetriDish.livingNeighbors (d : PetriDish) (x y : Nat) : Nat :=
  (d.neighborsOf x y).countP (fun c => c == Cell.LIVING)

/-- The transition rule exactly as the specification states it: a `Living`
cell with 2 or 3 living neighbors stays `Living`, otherwise becomes `Dead`;
a `Dead` cell with exactly 3 living neighbors becomes `Living`; `Blocked`
and `Core` cells retain their classification. -/
def specLifeRule (center count : Nat) : Nat :=
  if center = Cell.LIVING then
    if count = 2 ∨ count = 3 then Cell.LIVING else Cell.DEAD
  else if center = Cell.DEAD then
    if count = 3 then Cell.LIVING else Cell.DEAD
  else center

/-- The 9 coordinates of the 3×3 hazard block centered on the Dandelifeon. -/
def hazardBlock : List (Nat × Nat) :=
  [(11, 11), (12, 11), (13, 11),
   (11, 12), (12, 12), (13, 12),
   (11, 13), (12, 13), (13, 13)]

/-- All 625 cell coordinates, in the order the nested loops of
`reduce_cells` visit them (`y` outer, `x` inner, both ascending). -/
def cellOrder : List (Nat × Nat) :=
  (List.range 25).flatMap (fun y => (List.range 25).map (fun x => (x, y)))

/-- A concrete board with a Living cell at (11, 12), hazard-adjacent. -/
def C3board : PetriDish := PetriDish.new.write 11 12 Cell.LIVING

/-- A concrete board that reaches `NormalEnd` on its first step: three Living
cells around (11, 11) make that hazard-block cell compute as Living. -/
def C2board : PetriDish :=
  ((PetriDish.new.write 10 10 Cell.LIVING).write 10 11 Cell.LIVING).write
    11 10 Cell.LIVING

/-! ## The bees algorithm (`src/bees.rs`)

The `Colony` trait is modelled as a structure of its tunable constants and
capability functions (`evaluate`, `explore`), with the const generic
`N_SCOUTS` as a field.  The single shared random source, which the generic
engine only ever uses through `FlowerPatch::new(rng)` → `rng.random()`, is
modelled as a stream `Nat → α` of flower draws together with the index of the
next draw, threaded exactly where the source threads `rng`.  Fitness `Nectar`
is an arbitrary linearly ordered type (`Ord` in the source, lower = better). -/

/-- `Scout`: a candidate solution paired with its fitness, evaluated once at
construction. -/
structure Scout (α β : Type) where
  fitness : β
  solution : α
deriving DecidableEq

/-- `FlowerPatch`: a search neighborhood. -/
structure FlowerPatch (α β : Type) where
  scout : Scout α β
  foragers : Nat
  neighbourhood : Nat
  stagnation : Bool
  stagnation_counter : Nat
deriving DecidableEq

/-- The `Colony` trait: tunable constants plus `evaluate` and `explore`. -/
structure Colony (α β : Type) where
  N_SCOUTS : Nat
  ELITE_SITES : Nat
  BEST_SITES : Nat
  ELITE_RECRUITS : Nat
  BEST_RECRUITS : Nat
  FLOWER_PATCH_SIZE : Nat
  STAGNATION_LIMIT : Nat
  evaluate : α → β
  explore : α → Scout α β → Nat → α

/-- One application of the radius-shrink formula
`size - size.div_euclid(10) * 2` (also `saturating_sub`/`saturating_mul` in
`FlowerPatch::shrinking`; on `Nat` both agree since `size/10*2 ≤ size`). -/
def shrinkStep (size : Nat) : Nat := size - size / 10 * 2

/-- The `while` loop of `Colony::MINIMUM_RADIUS`: iterate `shrinkStep`
`limit` times starting from `size`. -/
def shrinkIter (size : Nat) : Nat → Nat
  | 0 => size
  | n + 1 => shrinkIter (shrinkStep size) n

/-- `Colony::MINIMUM_RADIUS`. -/
def Colony.MINIMUM_RADIUS {α β : Type} (c : Colony α β) : Nat :=
  shrinkIter c.FLOWER_PATCH_SIZE c.STAGNATION_LIMIT

/-- `Scout::with_solution`: evaluate immediately. -/
def Scout.with_solution {α β : Type} (c : Colony α β) (solution : α) :
    Scout α β :=
  ⟨c.evaluate solution, solution⟩

/-- `FlowerPatch::with_solution`. -/
def FlowerPatch.with_solution {α β : Type} (c : Colony α β) (solution : α) :
    FlowerPatch α β :=
  ⟨Scout.with_solution c solution, 0, c.FLOWER_PATCH_SIZE, true, 0⟩

/-- `FlowerPatch::new(rng)`: a fresh patch on the next random draw. -/
def FlowerPatch.new {α β : Type} (c : Colony α β) (draw : α) :
    FlowerPatch α β :=
  FlowerPatch.with_solution c draw

/-- `FlowerPatch::promote`. -/
def FlowerPatch.promote {α β : Type} (p : FlowerPatch α β)
    (new_scout : Scout α β) : FlowerPatch α β :=
  { p with scout := new_scout, stagnation := false }

/-- The body of the forager loop of `FlowerPatch::local_search`: explore one
candidate around the (current) incumbent and promote it on strict
improvement. -/
def FlowerPatch.forage {α β : Type} [LinearOrder β] (c : Colony α β)
    (current_best : Scout α β) (p2 : FlowerPatch α β) : FlowerPatch α β :=
  let new_scout := Scout.with_solution c
    (c.explore p2.scout.solution current_best p2.neighbourhood)
  if new_scout.fitness < p2.scout.fitness then p2.promote new_scout else p2

/-- `FlowerPatch::local_search`: set the stagnation flag, then let each
recruited forager explore around the (current) incumbent and promote on
strict improvement. -/
def FlowerPatch.local_search {α β : Type} [LinearOrder β] (c : Colony α β)
    (p : FlowerPatch α β) (current_best : Scout α β) : FlowerPatch α β :=
  (List.range p.foragers).foldl
    (fun p2 _ => FlowerPatch.forage c current_best p2)
    { p with stagnation := true }

/-- `FlowerPatch::shrinking`. -/
def FlowerPatch.shrinking {α β : Type} (p : FlowerPatch α β) :
    FlowerPatch α β :=
  if p.stagnation then { p with neighbourhood := shrinkStep p.neighbourhood }
  else p

/-- `FlowerPatch::abandonment`: on a stagnant cycle, either bump the counter
(while below the limit) or fold the incumbent into the global best (on strict
improvement) and replace the patch with a fresh random one.  Returns the
patch, the (possibly updated) global best, and the next stream index. -/
def FlowerPatch.abandonment {α β : Type} [LinearOrder β] (c : Colony α β)
    (stream : Nat → α) (p : FlowerPatch α β) (current_best : Scout α β)
    (k : Nat) : FlowerPatch α β × Scout α β × Nat :=
  if p.stagnation then
    if p.stagnation_counter < c.STAGNATION_LIMIT then
      ({ p with stagnation_counter := p.stagnation_counter + 1 },
       current_best, k)
    else
      (FlowerPatch.new c (stream k),
       if p.scout.fitness < current_best.fitness then p.scout
       else current_best,
       k + 1)
  else (p, current_best, k)

/-- `sort_by_key(fitness)`: a stable sort ascending by incumbent fitness.
(Any two stable sorts by the same key agree, so insertion sort models Rust's
stable `sort_by_key` exactly.) -/
def sortPatches {α β : Type} [LinearOrder β] (ps : List (FlowerPatch α β)) :
    List (FlowerPatch α β) :=
  ps.insertionSort (fun a b => a.scout.fitness ≤ b.scout.fitness)

/-- `flower_patches[index].foragers = n` (no-op out of range; the source
would panic there, and the loop invariants keep every index in range). -/
def setForagers {α β : Type} (ps : List (FlowerPatch α β)) (index n : Nat) :
    List (FlowerPatch α β) :=
  match ps[index]? with
  | some p => ps.set index { p with foragers := n }
  | none => ps

/-- `Colony::waggle_dance`: the top `ELITE_SITES` patches get
`ELITE_RECRUITS` foragers, the next `BEST_SITES - ELITE_SITES` get
`BEST_RECRUITS`. -/
def Colony.waggle_dance {α β : Type} (c : Colony α β)
    (ps : List (FlowerPatch α β)) : List (FlowerPatch α β) :=
  let ps1 := (List.range c.ELITE_SITES).foldl
    (fun ps index => setForagers ps index c.ELITE_RECRUITS) ps
  (List.range' c.ELITE_SITES (c.BEST_SITES - c.ELITE_SITES)).foldl
    (fun ps index => setForagers ps index c.BEST_RECRUITS) ps1

/-- The mutable state of one run of `Colony::bees`: the population, the
tracked global best, and the index of the next random draw. -/
structure BeesState (α β : Type) where
  patches : List (FlowerPatch α β)
  current_best : Scout α β
  k : Nat
deriving DecidableEq

/-- The head of each loop iteration of `Colony::bees`: sort by fitness,
record a strictly better front-runner as the new global best, and recruit
(`waggle_dance`).  (On an empty population the source would panic at
`flower_patches[0]`; the model keeps the previous best.) -/
def Colony.cycleRecruited {α β : Type} [LinearOrder β] (c : Colony α β)
    (st : BeesState α β) : BeesState α β :=
  let sorted := sortPatches st.patches
  let best := match sorted[0]? with
    | some p =>
        if p.scout.fitness < st.current_best.fitness then p.scout
        else st.current_best
    | none => st.current_best
  ⟨c.waggle_dance sorted, best, st.k⟩

/-- The `for i in 0..BEST_SITES` loop body of `Colony::bees`: local search,
abandonment, shrinking, threading the global best and the random stream. -/
def Colony.localPhase {α β : Type} [LinearOrder β] (c : Colony α β)
    (stream : Nat → α) (st : BeesState α β) : BeesState α β :=
  (List.range c.BEST_SITES).foldl
    (fun st i =>
      match st.patches[i]? with
      | some p =>
        let p1 := FlowerPatch.local_search c p st.current_best
        let r := FlowerPatch.abandonment c stream p1 st.current_best st.k
        let p3 := FlowerPatch.shrinking r.1
        ⟨st.patches.set i p3, r.2.1, r.2.2⟩
      | none => st)
    st

/-- The `for i in BEST_SITES..N_SCOUTS` loop of `Colony::bees`: global
search, replacing every non-best patch with a fresh random one. -/
def Colony.globalPhase {α β : Type} (c : Colony α β) (stream : Nat → α)
    (st : BeesState α β) : BeesState α β :=
  (List.range' c.BEST_SITES (c.N_SCOUTS - c.BEST_SITES)).foldl
    (fun st i =>
      ⟨st.patches.set i (FlowerPatch.new c (stream st.k)), st.current_best,
       st.k + 1⟩)
    st

/-- One full cycle of the `while !self.stopping_condition()` loop. -/
def Colony.cycle {α β : Type} [LinearOrder β] (c : Colony α β)
    (stream : Nat → α) (st : BeesState α β) : BeesState α β :=
  c.globalPhase stream (c.localPhase stream (c.cycleRecruited st))

/-- The initialization of `Colony::bees`: `N_SCOUTS` fresh random patches,
sorted, with the front-runner as the initial global best.  (On an empty
population the source would panic; the model evaluates draw 0.) -/
def Colony.initState {α β : Type} [LinearOrder β] (c : Colony α β)
    (stream : Nat → α) : BeesState α β :=
  let ps := sortPatches
    ((List.range c.N_SCOUTS).map (fun i => FlowerPatch.new c (stream i)))
  let best := match ps[0]? with
    | some p => p.scout
    | none => Scout.with_solution c (stream 0)
  ⟨ps, best, c.N_SCOUTS⟩

/-- `n` cycles of the run loop. -/
def Colony.runCycles {α β : Type} [LinearOrder β] (c : Colony α β)
    (stream : Nat → α) (st : BeesState α β) : Nat → BeesState α β
  | 0 => st
  | n + 1 => c.cycle stream (c.runCycles stream st n)

/-- `Colony::bees` with the caller's stopping condition modelled as a cycle
count: returns the tracked global best. -/
def Colony.bees {α β : Type} [LinearOrder β] (c : Colony α β)
    (stream : Nat → α) (ncycles : Nat) : Scout α β :=
  (c.runCycles stream (c.initState stream) ncycles).current_best

/-- The radius/stagnation-counter invariant maintained by the run loop: the
counter never exceeds the stagnation limit, and the radius is the `j`-fold
shrink of the initial patch radius for some `j ≤ counter + 1`. -/
def radiusInv {α β : Type} (c : Colony α β) (p : FlowerPatch α β) : Prop :=
  p.stagnation_counter ≤ c.STAGNATION_LIMIT ∧
  ∃ j, j ≤ p.stagnation_counter + 1 ∧
    p.neighbourhood = shrinkIter c.FLOWER_PATCH_SIZE j

/-- A constant stream of draws (every draw is the flower `5`). -/
def constStream5 : Nat → Nat := fun _ => 5

/-- A concrete one-patch colony (`N = 1`, elite 0, best 1, one recruit,
initial radius 100, stagnation limit 1) whose `explore` never improves:
fitness is the flower itself and exploration returns the origin. -/
def C4colony : Colony Nat Nat :=
  ⟨1, 0, 1, 1, 1, 100, 1, id, fun o _ _ => o⟩

/-- Like `C4colony`, but `explore` returns the (best possible) flower `0`
exactly when it is invoked with a radius below `MINIMUM_RADIUS = 80` — a
detector for such invocations. -/
def C4detect : Colony Nat Nat :=
  ⟨1, 0, 1, 1, 1, 100, 1, id, fun o _ r => if r < 80 then 0 else o⟩

/-- A concrete one-patch colony (initial radius 10, stagnation limit 100)
whose `explore` improves the incumbent exactly when the radius has shrunk
below 10 — so its first cycle is non-improving and its second improving. -/
def C5colony : Colony Nat Nat :=
  ⟨1, 0, 1, 1, 1, 10, 100, id, fun o _ r => if r < 10 then o - 1 else o⟩

/-- A concrete two-patch colony (`N = 2`, elite 0, best 1, recruit counts
7/5) whose `explore` never improves. -/
def C6colony : Colony Nat Nat :=
  ⟨2, 0, 1, 7, 5, 10, 100, id, fun o _ _ => o⟩

/-- A strictly decreasing stream of draws: each fresh random patch is better
(lower fitness) than every earlier one. -/
def C6stream : Nat → Nat := fun k => 10 - k

/-- `b' ≤ b` as tracked bests: either unchanged, or strictly better. -/
def bestRel {α β : Type} [LinearOrder β] (b' b : Scout α β) : Prop :=
  b' = b ∨ b'.fitness < b.fitness

/-! ## Bit-window lemmas

`read` extracts the 2-bit window `(row >>> 2x) &&& 3`.  These lemmas capture
how the window interacts with `|||`, `^^^` and a shifted 2-bit value. -/

theorem testBit_three (i : Nat) : Nat.testBit 3 i = decide (i < 2) := by
  have h : (3 : Nat) = 2 ^ 2 - 1 := by norm_num
  rw [h, Nat.testBit_two_pow_sub_one]

theorem and_three_eq (v : Nat) (hv : v < 4) : v &&& 3 = v := by
  interval_cases v <;> rfl

theorem window_lor (a b k : Nat) :
    ((a ||| b) >>> k) &&& 3 = ((a >>> k) &&& 3) ||| ((b >>> k) &&& 3) := by
  apply Nat.eq_of_testBit_eq
  intro i
  simp only [Nat.testBit_land, Nat.testBit_lor, Nat.testBit_shiftRight]
  cases a.testBit (k + i) <;> cases b.testBit (k + i) <;> simp

theorem window_xor (a b k : Nat) :
    ((a ^^^ b) >>> k) &&& 3 = ((a >>> k) &&& 3) ^^^ ((b >>> k) &&& 3) := by
  apply Nat.eq_of_testBit_eq
  intro i
  simp only [Nat.testBit_land, Nat.testBit_xor, Nat.testBit_shiftRight]
  cases a.testBit (k + i) <;> cases b.testBit (k + i) <;>
    cases Nat.testBit 3 i <;> simp

theorem window_shiftLeft_self (v x : Nat) (hv : v < 4) :
    ((v <<< (2 * x)) >>> (2 * x)) &&& 3 = v := by
  have h1 : (v <<< (2 * x)) >>> (2 * x) = v := by
    rw [Nat.shiftLeft_eq, Nat.shiftRight_eq_div_pow]
    exact Nat.mul_div_cancel v (Nat.pos_pow_of_pos _ (by norm_num))
  rw [h1, and_three_eq v hv]

theorem window_shiftLeft_ne (v x x' : Nat) (hv : v < 4) (h : x ≠ x') :
    ((v <<< (2 * x)) >>> (2 * x')) &&& 3 = 0 := by
  apply Nat.eq_of_testBit_eq
  intro i
  simp only [Nat.testBit_land, Nat.testBit_shiftRight, Nat.testBit_shiftLeft,
    Nat.zero_testBit, testBit_three]
  rcases Nat.lt_or_ge i 2 with hi | hi
  · by_cases hc : 2 * x ≤ 2 * x' + i
    · have hxx : x < x' := by omega
      have h2 : 2 ≤ 2 * x' + i - 2 * x := by omega
      have hb : v.testBit (2 * x' + i - 2 * x) = false := by
        apply Nat.testBit_lt_two_pow
        calc v < 4 := hv
          _ = 2 ^ 2 := by norm_num
          _ ≤ 2 ^ (2 * x' + i - 2 * x) := Nat.pow_le_pow_right (by norm_num) h2
      simp [hb]
    · simp [ge_iff_le, hc]
  · have : ¬ i < 2 := by omega
    simp [this]

theorem getD_set_self (l : List Nat) (i v : Nat) (h : i < l.length) :
    (l.set i v).getD i 0 = v := by
  simp [List.getD_eq_getElem?_getD, List.getElem?_set, h]

theorem getD_set_ne (l : List Nat) (i j v : Nat) (h : i ≠ j) :
    (l.set i v).getD j 0 = l.getD j 0 := by
  simp [List.getD_eq_getElem?_getD, List.getElem?_set, h]

theorem read_lt (d : PetriDish) (x y : Nat) : d.read x y < 4 := by
  unfold PetriDish.read
  split
  · exact Nat.lt_succ_of_le Nat.and_le_right
  · norm_num

theorem reduce_local_asm_lt (c : Nat) (ns : List Nat) :
    PetriDish.reduce_local_asm c ns < 4 := by
  unfold PetriDish.reduce_local_asm
  dsimp only
  split <;> split <;> decide

theorem nextCell_lt (d : PetriDish) (x y : Nat) : d.nextCell x y < 4 :=
  reduce_local_asm_lt _ _

/-! ## Read/write interaction -/

theorem window_mixed_self (v x : Nat) (hv : v < 4) :
    ((v <<< (x * 2)) >>> (2 * x)) &&& 3 = v := by
  rw [Nat.mul_comm x 2]
  exact window_shiftLeft_self v x hv

theorem window_mixed_ne (v x x' : Nat) (hv : v < 4) (h : x ≠ x') :
    ((v <<< (x * 2)) >>> (2 * x')) &&& 3 = 0 := by
  rw [Nat.mul_comm x 2]
  exact window_shiftLeft_ne v x x' hv h

theorem read_write_assume_clean_slate (d : PetriDish) (x y v : Nat)
    (hx : x < 25) (hy : y < 25) (hv : v < 4) (x' y' : Nat) :
    (d.write_assume_clean_slate x y v).read x' y'
      = if x' = x ∧ y' = y then d.read x y ||| v else d.read x' y' := by
  unfold PetriDish.write_assume_clean_slate PetriDish.setRow PetriDish.read
  dsimp only
  have hrow : (d.rows.set y (d.rows.getD y 0 ||| v <<< (x * 2))).getD y' 0
      = if y' = y then d.rows.getD y 0 ||| v <<< (x * 2)
        else d.rows.getD y' 0 := by
    by_cases hyy : y' = y
    · rw [if_pos hyy, hyy]
      exact getD_set_self _ _ _ (by rw [d.length_eq]; exact hy)
    · rw [if_neg hyy]
      exact getD_set_ne _ _ _ _ (fun he => hyy he.symm)
  rw [hrow]
  by_cases hyy : y' = y
  · by_cases hxx : x' = x
    · simp [hxx, hyy, hx, hy, window_lor, window_mixed_self v x hv]
    · simp [hxx, hyy, window_lor, Nat.or_zero,
        window_mixed_ne v x x' hv (fun he => hxx he.symm)]
  · simp [hyy]

theorem new_rows : PetriDish.new.rows
    = (List.replicate 25 0).set 12 (3 <<< (2 * 12)) := by
  rfl

theorem new_read (x y : Nat) :
    PetriDish.new.read x y
      = if x = 12 ∧ y = 12 then Cell.DANDELIFEON else Cell.DEAD := by
  unfold PetriDish.read
  rw [new_rows]
  have hz : ∀ y0 : Nat, (List.replicate 25 (0 : Nat)).getD y0 0 = 0 := by
    intro y0
    rw [List.getD_eq_getElem?_getD, List.getElem?_replicate]
    split <;> rfl
  have hset : ((List.replicate 25 (0 : Nat)).set 12 (3 <<< (2 * 12))).getD y 0
      = if y = 12 then 3 <<< (2 * 12) else 0 := by
    by_cases hyy : y = 12
    · rw [if_pos hyy, hyy]
      exact getD_set_self _ _ _ (by simp)
    · rw [if_neg hyy, getD_set_ne _ _ _ _ (fun he => hyy he.symm), hz]
  rw [hset]
  by_cases hyy : y = 12
  · by_cases hxx : x = 12
    · simp [hxx, hyy, window_shiftLeft_self 3 12 (by norm_num),
        Cell.DANDELIFEON]
    · have hwin : ((3 : Nat) <<< (2 * 12)) >>> (2 * x) &&& 3 = 0 :=
        window_shiftLeft_ne 3 12 x (by norm_num) (fun he => hxx he.symm)
      simp [hxx, hyy, Cell.DEAD]
      intro _
      simpa using hwin
  · simp [hyy, Cell.DEAD]

/-! ## Characterizing the cell-update fold of `reduce_cells` -/

theorem foldl_nested_eq {σ : Type} (f : σ → Nat → Nat → σ) (ys : List Nat)
    (acc : σ) :
    ys.foldl (fun a y => (List.range 25).foldl (fun a2 x => f a2 x y) a) acc
      = (ys.flatMap (fun y => (List.range 25).map (fun x => (x, y)))).foldl
          (fun a p => f a p.1 p.2) acc := by
  induction ys generalizing acc with
  | nil => rfl
  | cons y ys ih =>
    simp only [List.flatMap_cons, List.foldl_append, List.foldl_map,
      List.foldl_cons, ih]

theorem mem_cellOrder (x y : Nat) :
    (x, y) ∈ cellOrder ↔ x < 25 ∧ y < 25 := by
  simp only [cellOrder, List.mem_flatMap, List.mem_map, List.mem_range]
  constructor
  · rintro ⟨b, hb, a, ha, he⟩
    obtain ⟨rfl, rfl⟩ := Prod.mk.injEq .. ▸ he
    exact ⟨ha, hb⟩
  · rintro ⟨hx, hy⟩
    exact ⟨y, hy, x, hx, rfl⟩

theorem foldCells_fst_read (d : PetriDish) (L : List (Nat × Nat))
    (hL : ∀ p ∈ L, p.1 < 25 ∧ p.2 < 25) (acc : PetriDish × Status)
    (x y : Nat) (hx : x < 25) (hy : y < 25) :
    (L.foldl (fun a p => d.cellStep a p.1 p.2) acc).1.read x y
      = acc.1.read x y ||| (if (x, y) ∈ L then d.nextCell x y else 0) := by
  induction L generalizing acc with
  | nil => simp
  | cons p L ih =>
    obtain ⟨p1, p2⟩ := p
    have hp := hL (p1, p2) (by simp)
    have hL' : ∀ q ∈ L, q.1 < 25 ∧ q.2 < 25 := fun q hq => hL q (by simp [hq])
    rw [List.foldl_cons, ih hL']
    have hstep : (d.cellStep acc p1 p2).1.read x y
        = if x = p1 ∧ y = p2 then acc.1.read p1 p2 ||| d.nextCell p1 p2
          else acc.1.read x y := by
      unfold PetriDish.cellStep
      exact read_write_assume_clean_slate acc.1 p1 p2 _ hp.1 hp.2
        (nextCell_lt d p1 p2) x y
    by_cases hxy : x = p1 ∧ y = p2
    · obtain ⟨rfl, rfl⟩ := hxy
      rw [hstep]
      simp only [if_pos (And.intro rfl rfl), List.mem_cons]
      by_cases hmem : (x, y) ∈ L
      · simp [hmem, Nat.lor_assoc, Nat.or_self]
      · simp [hmem, Nat.lor_assoc]
    · rw [hstep, if_neg hxy]
      have hne : ((x, y) ∈ (p1, p2) :: L) ↔ ((x, y) ∈ L) := by
        simp only [List.mem_cons, Prod.mk.injEq]
        constructor
        · rintro (h | h)
          · exact absurd h hxy
          · exact h
        · exact Or.inr
      simp only [hne]

theorem foldCells_snd (d : PetriDish) (L : List (Nat × Nat))
    (acc : PetriDish × Status) :
    (L.foldl (fun a p => d.cellStep a p.1 p.2) acc).2
      = if ∃ p ∈ L, d.nextCell p.1 p.2 = Cell.LIVING ∧
            (11 ≤ p.1 ∧ p.1 < 14) ∧ 11 ≤ p.2 ∧ p.2 < 14
        then Status.NormalEnd else acc.2 := by
  induction L generalizing acc with
  | nil => simp
  | cons p L ih =>
    obtain ⟨p1, p2⟩ := p
    rw [List.foldl_cons, ih]
    by_cases hc : d.nextCell p1 p2 = Cell.LIVING ∧
        (11 ≤ p1 ∧ p1 < 14) ∧ 11 ≤ p2 ∧ p2 < 14
    · have hex : ∃ p ∈ (p1, p2) :: L, d.nextCell p.1 p.2 = Cell.LIVING ∧
          (11 ≤ p.1 ∧ p.1 < 14) ∧ 11 ≤ p.2 ∧ p.2 < 14 :=
        ⟨(p1, p2), by simp, hc⟩
      have hsnd : (d.cellStep acc p1 p2).2 = Status.NormalEnd := by
        unfold PetriDish.cellStep
        simp [hc]
      rw [hsnd, if_pos hex]
      split <;> rfl
    · have hsnd : (d.cellStep acc p1 p2).2 = acc.2 := by
        unfold PetriDish.cellStep
        simp [hc]
      rw [hsnd]
      have hiff : (∃ p ∈ (p1, p2) :: L, d.nextCell p.1 p.2 = Cell.LIVING ∧
            (11 ≤ p.1 ∧ p.1 < 14) ∧ 11 ≤ p.2 ∧ p.2 < 14)
          ↔ (∃ p ∈ L, d.nextCell p.1 p.2 = Cell.LIVING ∧
            (11 ≤ p.1 ∧ p.1 < 14) ∧ 11 ≤ p.2 ∧ p.2 < 14) := by
        simp only [List.mem_cons]
        constructor
        · rintro ⟨q, (rfl | hq), hP⟩
          · exact absurd hP hc
          · exact ⟨q, hq, hP⟩
        · rintro ⟨q, hq, hP⟩
          exact ⟨q, Or.inr hq, hP⟩
      rw [if_congr hiff rfl rfl]

/-! ## `reduce_cells` characterized cell-by-cell -/

theorem reduce_cells_abort (d : PetriDish)
    (h : (d.neighborsOf 12 12).any
        (fun dangerous_cell => dangerous_cell == Cell.LIVING) = true) :
    d.reduce_cells = (d, Status.AbrubtEnd) := by
  unfold PetriDish.reduce_cells
  simp [h]

theorem reduce_cells_fst_read (d : PetriDish)
    (h : (d.neighborsOf 12 12).any
        (fun dangerous_cell => dangerous_cell == Cell.LIVING) = false)
    (x y : Nat) (hx : x < 25) (hy : y < 25) :
    (d.reduce_cells).1.read x y = PetriDish.new.read x y ||| d.nextCell x y := by
  unfold PetriDish.reduce_cells
  simp only [h, Bool.false_eq_true, if_false]
  rw [foldl_nested_eq (fun a x y => d.cellStep a x y)]
  have hco : ((List.range 25).flatMap fun y =>
      List.map (fun x => (x, y)) (List.range 25)) = cellOrder := rfl
  rw [hco]
  rw [foldCells_fst_read d cellOrder
    (fun p hp => by
      obtain ⟨p1, p2⟩ := p
      exact (mem_cellOrder p1 p2).1 hp)
    (PetriDish.new, Status.Continue) x y hx hy]
  rw [if_pos ((mem_cellOrder x y).2 ⟨hx, hy⟩)]

theorem reduce_cells_snd (d : PetriDish)
    (h : (d.neighborsOf 12 12).any
        (fun dangerous_cell => dangerous_cell == Cell.LIVING) = false) :
    (d.reduce_cells).2
      = if ∃ p ∈ cellOrder, d.nextCell p.1 p.2 = Cell.LIVING ∧
            (11 ≤ p.1 ∧ p.1 < 14) ∧ 11 ≤ p.2 ∧ p.2 < 14
        then Status.NormalEnd else Status.Continue := by
  unfold PetriDish.reduce_cells
  simp only [h, Bool.false_eq_true, if_false]
  rw [foldl_nested_eq (fun a x y => d.cellStep a x y)]
  have hco : ((List.range 25).flatMap fun y =>
      List.map (fun x => (x, y)) (List.range 25)) = cellOrder := rfl
  rw [hco]
  rw [foldCells_snd d cellOrder (PetriDish.new, Status.Continue)]

theorem countFold (ns : List Nat) :
    ns.foldl (fun acc number => acc + (if number == Cell.LIVING then 1 else 0)) 0
      = ns.countP (fun c => c == Cell.LIVING) := by
  suffices h : ∀ k : Nat, ns.foldl
      (fun acc number => acc + (if number == Cell.LIVING then 1 else 0)) k
      = k + ns.countP (fun c => c == Cell.LIVING) by
    simpa using h 0
  induction ns with
  | nil => intro k; simp
  | cons n ns ih =>
    intro k
    rw [List.foldl_cons, ih, List.countP_cons]
    by_cases hn : (n == Cell.LIVING) = true
    · simp [hn]; omega
    · simp [hn]

theorem reduce_local_asm_spec (c : Nat) (hc : c < 4) (ns : List Nat) :
    PetriDish.reduce_local_asm c ns
      = specLifeRule c (ns.countP (fun n => n == Cell.LIVING)) := by
  unfold PetriDish.reduce_local_asm specLifeRule
  dsimp only
  rw [countFold]
  interval_cases c
  · by_cases h3 : ns.countP (fun c => c == (1 : Nat)) = 3 <;>
      simp [h3, Cell.LIVING, Cell.DEAD, Cell.BLOCKED, Cell.DANDELIFEON]
  · by_cases h3 : ns.countP (fun c => c == (1 : Nat)) = 3 <;>
      by_cases h2 : ns.countP (fun c => c == (1 : Nat)) = 2 <;>
      simp [h3, h2, Cell.LIVING, Cell.DEAD, Cell.BLOCKED, Cell.DANDELIFEON]
  · simp [Cell.LIVING, Cell.DEAD, Cell.BLOCKED, Cell.DANDELIFEON]
  · simp [Cell.LIVING, Cell.DEAD, Cell.BLOCKED, Cell.DANDELIFEON]

theorem nextCell_spec (d : PetriDish) (x y : Nat) :
    d.nextCell x y = specLifeRule (d.read x y) (d.livingNeighbors x y) :=
  reduce_local_asm_spec (d.read x y) (read_lt d x y) (d.neighborsOf x y)

theorem reduce_local_asm_core (ns : List Nat) :
    PetriDish.reduce_local_asm Cell.DANDELIFEON ns = Cell.DANDELIFEON := by
  unfold PetriDish.reduce_local_asm
  simp [Cell.LIVING, Cell.DEAD, Cell.BLOCKED, Cell.DANDELIFEON]

theorem no_living_iff_any_eq_false (l : List Nat) :
    (l.any (fun dangerous_cell => dangerous_cell == Cell.LIVING) = false)
      ↔ ∀ c ∈ l, c ≠ Cell.LIVING := by
  rw [List.any_eq_false]
  constructor
  · intro h c hc he
    exact h c hc (by simp [he])
  · intro h c hc hb
    exact h c hc (by simpa using hb)

theorem mem_hazardBlock (p : Nat × Nat) :
    p ∈ hazardBlock ↔ (11 ≤ p.1 ∧ p.1 < 14) ∧ 11 ≤ p.2 ∧ p.2 < 14 := by
  obtain ⟨a, b⟩ := p
  simp only [hazardBlock, List.mem_cons, List.mem_singleton, Prod.mk.injEq,
    List.not_mem_nil, or_false]
  omega

theorem nextCell_center (d : PetriDish) (hcore : d.read 12 12 = Cell.DANDELIFEON) :
    d.nextCell 12 12 = Cell.DANDELIFEON := by
  unfold PetriDish.nextCell
  dsimp only
  rw [hcore]
  exact reduce_local_asm_core _

/-! ## Claim theorems for the simulation engine -/

/-- C1: for every board whose center is the Core cell and in which none of the
8 hazard-adjacent cells is Living, `reduce_cells` computes every cell's next
state by the Game-of-Life rule stated in the specification (out-of-range
neighbors counted as Dead; Blocked and Core keep their classification), and
returns `NormalEnd` exactly when some cell of the 3×3 hazard block computes
as Living, `Continue` otherwise — in either case the full new grid is
computed and returned. -/
theorem C1_step_transition (d : PetriDish)
    (hcore : d.read 12 12 = Cell.DANDELIFEON)
    (hsafe : ∀ c ∈ d.neighborsOf 12 12, c ≠ Cell.LIVING) :
    (∀ x y, x < 25 → y < 25 →
      (d.reduce_cells).1.read x y
        = specLifeRule (d.read x y) (d.livingNeighbors x y)) ∧
    ((d.reduce_cells).2
      = if ∃ p ∈ hazardBlock,
            specLifeRule (d.read p.1 p.2) (d.livingNeighbors p.1 p.2)
              = Cell.LIVING
        then Status.NormalEnd else Status.Continue) := by
  have hany := (no_living_iff_any_eq_false _).2 hsafe
  constructor
  · intro x y hx hy
    rw [reduce_cells_fst_read d hany x y hx hy, new_read, ← nextCell_spec]
    by_cases hc : x = 12 ∧ y = 12
    · obtain ⟨rfl, rfl⟩ := hc
      rw [if_pos ⟨rfl, rfl⟩, nextCell_center d hcore]
      rfl
    · rw [if_neg hc]
      simp [Cell.DEAD]
  · rw [reduce_cells_snd d hany]
    have hiff : (∃ p ∈ cellOrder, d.nextCell p.1 p.2 = Cell.LIVING ∧
          (11 ≤ p.1 ∧ p.1 < 14) ∧ 11 ≤ p.2 ∧ p.2 < 14)
        ↔ (∃ p ∈ hazardBlock,
            specLifeRule (d.read p.1 p.2) (d.livingNeighbors p.1 p.2)
              = Cell.LIVING) := by
      constructor
      · rintro ⟨p, hmem, hliv, hb⟩
        exact ⟨p, (mem_hazardBlock p).2 hb, by rw [← nextCell_spec]; exact hliv⟩
      · rintro ⟨p, hmem, hliv⟩
        have hb := (mem_hazardBlock p).1 hmem
        refine ⟨p, ?_, by rw [nextCell_spec]; exact hliv, hb⟩
        obtain ⟨p1, p2⟩ := p
        exact (mem_cellOrder p1 p2).2 ⟨by omega, by omega⟩
    rw [if_congr hiff rfl rfl]

/-- Witness for C1 at the freshly constructed board (which trivially has no
Living hazard-adjacent cell): the status clause instantiated there. -/
theorem C1_step_transition_witness :
    PetriDish.new.read 12 12 = Cell.DANDELIFEON ∧
    ((PetriDish.new.reduce_cells).2
      = if ∃ p ∈ hazardBlock,
            specLifeRule (PetriDish.new.read p.1 p.2)
              (PetriDish.new.livingNeighbors p.1 p.2) = Cell.LIVING
        then Status.NormalEnd else Status.Continue) :=
  ⟨by decide, (C1_step_transition PetriDish.new (by decide) (by decide)).2⟩

/-- C3: if at least one of the 8 hazard-adjacent cells is Living, the step
returns the unmodified board together with `AbrubtEnd` (no other cell is
recomputed — the returned board is the input itself). -/
theorem C3_abort_unchanged (d : PetriDish)
    (h : ∃ c ∈ d.neighborsOf 12 12, c = Cell.LIVING) :
    d.reduce_cells = (d, Status.AbrubtEnd) := by
  apply reduce_cells_abort
  rw [List.any_eq_true]
  obtain ⟨c, hc, rfl⟩ := h
  exact ⟨Cell.LIVING, hc, rfl⟩

/-- Witness for C3: the concrete board `C3board` aborts unchanged. -/
theorem C3_abort_unchanged_witness :
    (∃ c ∈ C3board.neighborsOf 12 12, c = Cell.LIVING) ∧
    C3board.reduce_cells = (C3board, Status.AbrubtEnd) :=
  ⟨by decide, C3_abort_unchanged C3board (by decide)⟩

theorem read_set_dead (d : PetriDish) (x y : Nat) (hx : x < 25) (hy : y < 25) :
    (d.set_dead x y).read x y = 0 := by
  unfold PetriDish.set_dead PetriDish.setRow PetriDish.read
  dsimp only
  simp only [hx, hy, and_self, if_true]
  rw [getD_set_self _ _ _ (by rw [d.length_eq]; exact hy)]
  rw [window_xor, window_shiftLeft_self _ _ (Nat.lt_succ_of_le Nat.and_le_right)]
  exact Nat.xor_self _

/-- C8: `write` then `read` round-trips on every in-range coordinate for every
2-bit state, regardless of previous contents; every out-of-range read (also
through the explicit no-value coordinates) returns `Dead`. -/
theorem C8_write_read (d : PetriDish) (x y s : Nat)
    (hx : x < 25) (hy : y < 25) (hs : s < 4) :
    ((d.write x y s).read x y = s) ∧
    (∀ (d0 : PetriDish) (x0 y0 : Nat), 25 ≤ x0 ∨ 25 ≤ y0 →
      d0.read x0 y0 = Cell.DEAD) ∧
    (∀ (d0 : PetriDish) (y0 : Nat), d0.read_maybe_x none y0 = Cell.DEAD) ∧
    (∀ (d0 : PetriDish) (x0 : Nat), d0.read_maybe_y x0 none = Cell.DEAD) ∧
    (∀ (d0 : PetriDish) (x0 y0 : Option Nat), x0 = none ∨ y0 = none →
      d0.read_maybe_x_y x0 y0 = Cell.DEAD) := by
  refine ⟨?_, ?_, ?_, ?_, ?_⟩
  · have h1 : d.write x y s = (d.set_dead x y).write_assume_clean_slate x y s :=
      rfl
    rw [h1, read_write_assume_clean_slate _ x y s hx hy hs x y,
      if_pos ⟨rfl, rfl⟩, read_set_dead d x y hx hy, Nat.zero_or]
  · intro d0 x0 y0 h
    unfold PetriDish.read
    rw [if_neg (by omega)]
    rfl
  · intro d0 y0
    rfl
  · intro d0 x0
    rfl
  · intro d0 x0 y0 h
    rcases h with rfl | rfl
    · rfl
    · cases x0 <;> rfl

/-- Witness for C8 at a concrete write: state 2 written at (0, 24) over a
board that previously held 1 there. -/
theorem C8_write_read_witness :
    (((PetriDish.new.write 0 24 1).write 0 24 2).read 0 24 = 2) ∧
    PetriDish.new.read 25 3 = Cell.DEAD :=
  ⟨(C8_write_read (PetriDish.new.write 0 24 1) 0 24 2 (by decide) (by decide)
      (by decide)).1,
   (C8_write_read PetriDish.new 0 24 2 (by decide) (by decide)
      (by decide)).2.1 PetriDish.new 25 3 (Or.inl (by decide))⟩

/-- C9: the center coordinate reads Core on the freshly constructed board, and
any board whose center reads Core still reads Core there after a step. -/
theorem C9_core_center :
    PetriDish.new.read 12 12 = Cell.DANDELIFEON ∧
    ∀ d : PetriDish, d.read 12 12 = Cell.DANDELIFEON →
      (d.reduce_cells).1.read 12 12 = Cell.DANDELIFEON := by
  refine ⟨by decide, ?_⟩
  intro d hcore
  rcases Bool.eq_false_or_eq_true ((d.neighborsOf 12 12).any
      (fun dangerous_cell => dangerous_cell == Cell.LIVING)) with hany | hany
  · rw [reduce_cells_abort d hany]
    exact hcore
  · rw [reduce_cells_fst_read d hany 12 12 (by norm_num) (by norm_num),
      new_read, if_pos ⟨rfl, rfl⟩, nextCell_center d hcore]
    rfl

/-- Witness for C9: the preservation clause applied to the fresh board. -/
theorem C9_core_center_witness :
    (PetriDish.new.reduce_cells).1.read 12 12 = Cell.DANDELIFEON :=
  C9_core_center.2 PetriDish.new (by decide)

/-! ## The play loop -/

theorem neighborsOf_center (d : PetriDish) :
    d.neighborsOf 12 12
      = [d.read 13 12, d.read 11 12, d.read 12 11, d.read 13 11,
         d.read 11 11, d.read 12 13, d.read 13 13, d.read 11 13] := rfl

theorem foldl_mana (l : List Nat) (age : Nat) : ∀ k : Nat,
    l.foldl (fun mana c => if c == Cell.LIVING then mana + age * 60 else mana) k
      = k + l.countP (fun c => c == Cell.LIVING) * (age * 60) := by
  induction l with
  | nil => intro k; simp
  | cons a l ih =>
    intro k
    rw [List.foldl_cons, List.countP_cons]
    by_cases ha : (a == Cell.LIVING) = true
    · rw [if_pos ha, ih, if_pos ha]
      ring
    · rw [if_neg ha, ih, if_neg ha]
      ring

theorem score_eq (d : PetriDish) (age : Nat) :
    d.score age = d.livingNeighbors 12 12 * (age * 60) := by
  unfold PetriDish.score PetriDish.livingNeighbors
  rw [foldl_mana]
  exact Nat.zero_add _

/-- If a step returns `Continue`, none of the 8 hazard-adjacent cells of the
returned board is Living. -/
theorem continue_safe (d : PetriDish)
    (h : (d.reduce_cells).2 = Status.Continue) :
    ∀ c ∈ (d.reduce_cells).1.neighborsOf 12 12, c ≠ Cell.LIVING := by
  rcases Bool.eq_false_or_eq_true ((d.neighborsOf 12 12).any
      (fun dangerous_cell => dangerous_cell == Cell.LIVING)) with hany | hany
  · rw [reduce_cells_abort d hany] at h
    cases h
  · have hnz : ¬ ∃ p ∈ cellOrder, d.nextCell p.1 p.2 = Cell.LIVING ∧
        (11 ≤ p.1 ∧ p.1 < 14) ∧ 11 ≤ p.2 ∧ p.2 < 14 := by
      intro hex
      rw [reduce_cells_snd d hany, if_pos hex] at h
      cases h
    have hread : ∀ x y, 11 ≤ x → x < 14 → 11 ≤ y → y < 14 →
        (d.reduce_cells).1.read x y ≠ Cell.LIVING := by
      intro x y h1 h2 h3 h4
      rw [reduce_cells_fst_read d hany x y (by omega) (by omega), new_read]
      by_cases hc : x = 12 ∧ y = 12
      · rw [if_pos hc]
        intro he
        have hlt := nextCell_lt d x y
        revert he
        revert hlt
        generalize d.nextCell x y = n
        intro hlt he
        interval_cases n <;> exact absurd he (by decide)
      · rw [if_neg hc]
        intro hl
        apply hnz
        refine ⟨(x, y), (mem_cellOrder x y).2 ⟨by omega, by omega⟩, ?_,
          ⟨h1, h2⟩, h3, h4⟩
        simpa [Cell.DEAD] using hl
    intro c hc
    rw [neighborsOf_center] at hc
    simp only [List.mem_cons, List.not_mem_nil, or_false] at hc
    rcases hc with rfl | rfl | rfl | rfl | rfl | rfl | rfl | rfl <;>
      exact hread _ _ (by norm_num) (by norm_num) (by norm_num) (by norm_num)

/-- A board with no Living hazard-adjacent cell never returns `AbrubtEnd`. -/
theorem safe_no_abort (d : PetriDish)
    (h : ∀ c ∈ d.neighborsOf 12 12, c ≠ Cell.LIVING) :
    (d.reduce_cells).2 ≠ Status.AbrubtEnd := by
  have hany := (no_living_iff_any_eq_false _).2 h
  rw [reduce_cells_snd d hany]
  split <;> simp

theorem playAux_succ (fuel : Nat) (d : PetriDish) (iters : Nat) :
    PetriDish.playAux (fuel + 1) d iters
      = (if (d.reduce_cells).2.toNat > 0 then
          (d.reduce_cells).1.score
            (min (iters + 1 - ((d.reduce_cells).2.toNat - 1)) 100)
        else if iters + 1 > 101 then 0
        else PetriDish.playAux fuel (d.reduce_cells).1 (iters + 1)) := rfl

/-- Unfolding `play` along an initial run of `Continue` steps. -/
theorem play_shift (d : PetriDish) : ∀ m : Nat, m ≤ 102 →
    (∀ j, 1 ≤ j → j ≤ m → (d.stepIter j).2 = Status.Continue) →
    d.play = PetriDish.playAux (102 - m) (d.stepIter m).1 m := by
  intro m
  induction m with
  | zero => intro _ _; rfl
  | succ m ih =>
    intro hm hcont
    have hm' : m ≤ 102 := by omega
    have hcont' : ∀ j, 1 ≤ j → j ≤ m → (d.stepIter j).2 = Status.Continue :=
      fun j h1 h2 => hcont j h1 (by omega)
    rw [ih hm' hcont']
    have hfuel : 102 - m = (101 - m) + 1 := by omega
    rw [hfuel]
    have hs : ((d.stepIter m).1.reduce_cells).2 = Status.Continue :=
      hcont (m + 1) (by omega) le_rfl
    rw [playAux_succ, hs]
    norm_num [Status.toNat]
    by_cases h101 : m + 1 > 101
    · have h0 : 102 - (m + 1) = 0 := by omega
      rw [h0]
      simp [h101, PetriDish.playAux]
    · have h0 : 102 - (m + 1) = 101 - m := by omega
      rw [h0]
      simp only [h101, if_false]
      rfl

/-- C10: a `Continue` step leaves no Living hazard-adjacent cell in the
returned board; consequently a step following a `Continue` step can never
return `AbrubtEnd` (AbruptEnd can only come from the very first step of
`play`), and when the first step aborts, `play` computes age 0 and returns
the promised score 0. -/
theorem C10_continue_no_abort (d : PetriDish) :
    ((d.reduce_cells).2 = Status.Continue →
      ∀ c ∈ (d.reduce_cells).1.neighborsOf 12 12, c ≠ Cell.LIVING) ∧
    ((d.reduce_cells).2 = Status.Continue →
      ((d.reduce_cells).1.reduce_cells).2 ≠ Status.AbrubtEnd) ∧
    ((d.stepIter 1).2 = Status.AbrubtEnd → d.play = 0) := by
  refine ⟨continue_safe d, ?_, ?_⟩
  · intro h
    exact safe_no_abort _ (continue_safe d h)
  · intro h
    have h1 : (d.reduce_cells).2 = Status.AbrubtEnd := h
    show PetriDish.playAux 102 d 0 = 0
    have hfuel : (102 : Nat) = 101 + 1 := by norm_num
    rw [hfuel, playAux_succ, h1]
    have ht : Status.AbrubtEnd.toNat = 2 := rfl
    rw [ht, if_pos (show (2 : Nat) > 0 by norm_num)]
    have hmin : min (0 + 1 - (2 - 1)) 100 = 0 := by norm_num
    rw [hmin, score_eq]
    simp

/-- Witness for C10: the first-step-abort clause at a concrete aborting
board. -/
theorem C10_continue_no_abort_witness :
    ((C3board.stepIter 1).2 = Status.AbrubtEnd) ∧ C3board.play = 0 :=
  ⟨by decide, (C10_continue_no_abort C3board).2.2 (by decide)⟩

/-- C2: `play` repeatedly steps until a non-`Continue` status (with the
iteration cutoff): if the first non-`Continue` status is `NormalEnd` at step
`k`, the score is `60 * min k 100` per Living hazard-adjacent cell of the
final board; if it is `AbrubtEnd`, or all steps up to the cutoff return
`Continue`, the score is 0. -/
theorem C2_play_score (d : PetriDish) (k : Nat) (hk1 : 1 ≤ k) (hk2 : k ≤ 102)
    (hprev : ∀ j, 1 ≤ j → j < k → (d.stepIter j).2 = Status.Continue) :
    ((d.stepIter k).2 = Status.NormalEnd →
      d.play = 60 * min k 100 * (d.stepIter k).1.livingNeighbors 12 12) ∧
    ((d.stepIter k).2 = Status.AbrubtEnd → d.play = 0) ∧
    ((∀ j, 1 ≤ j → j ≤ 102 → (d.stepIter j).2 = Status.Continue) →
      d.play = 0) := by
  have hksub : k - 1 + 1 = k := by omega
  refine ⟨?_, ?_, ?_⟩
  · intro hNE
    have hcont : ∀ j, 1 ≤ j → j ≤ k - 1 → (d.stepIter j).2 = Status.Continue :=
      fun j h1 h2 => hprev j h1 (by omega)
    rw [play_shift d (k - 1) (by omega) hcont]
    have hfuel : 102 - (k - 1) = (102 - k) + 1 := by omega
    have hstep : ((d.stepIter (k - 1)).1.reduce_cells) = d.stepIter k := by
      rw [← hksub]
      rfl
    rw [hfuel, playAux_succ, hstep, hNE]
    have ht : Status.NormalEnd.toNat = 1 := rfl
    rw [ht, if_pos (show (1 : Nat) > 0 by norm_num)]
    have hage : k - 1 + 1 - (1 - 1) = k := by omega
    rw [hage, score_eq]
    ring
  · intro hAB
    rcases Nat.eq_or_lt_of_le hk1 with hk | hk
    · have h1 : (d.reduce_cells).2 = Status.AbrubtEnd := by
        rw [← hk] at hAB
        exact hAB
      show PetriDish.playAux 102 d 0 = 0
      have hfuel : (102 : Nat) = 101 + 1 := by norm_num
      rw [hfuel, playAux_succ, h1]
      have ht : Status.AbrubtEnd.toNat = 2 := rfl
      rw [ht, if_pos (show (2 : Nat) > 0 by norm_num)]
      have hmin : min (0 + 1 - (2 - 1)) 100 = 0 := by norm_num
      rw [hmin, score_eq]
      simp
    · exfalso
      have hk2' : 2 ≤ k := hk
      have hC : (d.stepIter (k - 1)).2 = Status.Continue :=
        hprev (k - 1) (by omega) (by omega)
      have hC' : ((d.stepIter (k - 2)).1.reduce_cells).2 = Status.Continue := by
        have : k - 2 + 1 = k - 1 := by omega
        rw [← this] at hC
        exact hC
      have hsafe := continue_safe _ hC'
      have hboard : ((d.stepIter (k - 2)).1.reduce_cells).1
          = (d.stepIter (k - 1)).1 := by
        have : k - 2 + 1 = k - 1 := by omega
        rw [← this]
        rfl
      rw [hboard] at hsafe
      have hno := safe_no_abort _ hsafe
      have hstep : ((d.stepIter (k - 1)).1.reduce_cells) = d.stepIter k := by
        rw [← hksub]
        rfl
      rw [hstep] at hno
      exact hno hAB
  · intro hcont
    rw [play_shift d 102 le_rfl hcont]
    rfl

/-- Witness for C2: the `NormalEnd` clause at `C2board` with `k = 1`. -/
theorem C2_play_score_witness :
    ((C2board.stepIter 1).2 = Status.NormalEnd) ∧
    C2board.play
      = 60 * min 1 100 * (C2board.stepIter 1).1.livingNeighbors 12 12 :=
  ⟨by decide,
   (C2_play_score C2board 1 (by norm_num) (by norm_num)
      (fun j h1 h2 => absurd (Nat.lt_of_lt_of_le h2 h1) (Nat.lt_irrefl j))).1
     (by decide)⟩

end Dandelifeon

namespace Dandelifeon

/-! ## Monotonicity of the tracked global best (C7) -/

theorem bestRel_refl {α β : Type} [LinearOrder β] (b : Scout α β) :
    bestRel b b := Or.inl rfl

theorem bestRel_trans {α β : Type} [LinearOrder β] {b2 b1 b0 : Scout α β}
    (h21 : bestRel b2 b1) (h10 : bestRel b1 b0) : bestRel b2 b0 := by
  rcases h21 with rfl | h21
  · exact h10
  · rcases h10 with rfl | h10
    · exact Or.inr h21
    · exact Or.inr (lt_trans h21 h10)

theorem cycleRecruited_bestRel {α β : Type} [LinearOrder β] (c : Colony α β)
    (st : BeesState α β) :
    bestRel (c.cycleRecruited st).current_best st.current_best := by
  unfold Colony.cycleRecruited
  dsimp only
  cases (sortPatches st.patches)[0]? with
  | none => exact bestRel_refl _
  | some p =>
    dsimp only
    split
    · exact Or.inr (by assumption)
    · exact bestRel_refl _

theorem abandonment_bestRel {α β : Type} [LinearOrder β] (c : Colony α β)
    (stream : Nat → α) (p : FlowerPatch α β) (b : Scout α β) (k : Nat) :
    bestRel (FlowerPatch.abandonment c stream p b k).2.1 b := by
  unfold FlowerPatch.abandonment
  split
  · split
    · exact bestRel_refl _
    · dsimp only
      split
      · exact Or.inr (by assumption)
      · exact bestRel_refl _
  · exact bestRel_refl _

theorem localPhase_bestRel {α β : Type} [LinearOrder β] (c : Colony α β)
    (stream : Nat → α) (st : BeesState α β) :
    bestRel (c.localPhase stream st).current_best st.current_best := by
  unfold Colony.localPhase
  generalize List.range c.BEST_SITES = l
  induction l generalizing st with
  | nil => exact bestRel_refl _
  | cons i l ih =>
    rw [List.foldl_cons]
    refine bestRel_trans (ih _) ?_
    cases h : st.patches[i]? with
    | none => simp [h]; exact bestRel_refl _
    | some p => simp [h]; exact abandonment_bestRel c stream _ _ _

theorem globalPhase_best {α β : Type} [LinearOrder β] (c : Colony α β)
    (stream : Nat → α) (st : BeesState α β) :
    (c.globalPhase stream st).current_best = st.current_best := by
  unfold Colony.globalPhase
  generalize List.range' c.BEST_SITES (c.N_SCOUTS - c.BEST_SITES) = l
  induction l generalizing st with
  | nil => rfl
  | cons i l ih => rw [List.foldl_cons]; exact ih _

theorem cycle_bestRel {α β : Type} [LinearOrder β] (c : Colony α β)
    (stream : Nat → α) (st : BeesState α β) :
    bestRel (c.cycle stream st).current_best st.current_best := by
  unfold Colony.cycle
  rw [globalPhase_best]
  exact bestRel_trans (localPhase_bestRel c stream _)
    (cycleRecruited_bestRel c st)

theorem runCycles_bestRel {α β : Type} [LinearOrder β] (c : Colony α β)
    (stream : Nat → α) (st : BeesState α β) (m n : Nat) (hmn : m ≤ n) :
    bestRel (c.runCycles stream st n).current_best
      (c.runCycles stream st m).current_best := by
  induction n with
  | zero =>
    have hm : m = 0 := by omega
    rw [hm]
    exact bestRel_refl _
  | succ n ih =>
    rcases Nat.eq_or_lt_of_le hmn with hm | hm
    · rw [hm]
      exact bestRel_refl _
    · exact bestRel_trans (cycle_bestRel c stream _) (ih (by omega))

/-- C7: across the whole run, for every Colony implementation and every
stream of random draws, the tracked global best fitness after `n` cycles is
at most its value after any earlier `m` cycles, and the tracked best scout
changes only to one of strictly smaller fitness. -/
theorem C7_best_monotone {α β : Type} [LinearOrder β] (c : Colony α β)
    (stream : Nat → α) (st : BeesState α β) (m n : Nat) (hmn : m ≤ n) :
    ((c.runCycles stream st n).current_best.fitness
      ≤ (c.runCycles stream st m).current_best.fitness) ∧
    ((c.runCycles stream st n).current_best
        ≠ (c.runCycles stream st m).current_best →
      (c.runCycles stream st n).current_best.fitness
        < (c.runCycles stream st m).current_best.fitness) := by
  have h := runCycles_bestRel c stream st m n hmn
  rcases h with he | hlt
  · rw [he]
    exact ⟨le_refl _, fun hne => absurd rfl hne⟩
  · exact ⟨le_of_lt hlt, fun _ => hlt⟩

/-- Witness for C7 at a concrete colony, stream, initial state and pair of
cycle counts. -/
theorem C7_best_monotone_witness :
    (C4colony.runCycles constStream5 (C4colony.initState constStream5)
        2).current_best.fitness
      ≤ (C4colony.runCycles constStream5 (C4colony.initState constStream5)
        0).current_best.fitness :=
  (C7_best_monotone C4colony constStream5 (C4colony.initState constStream5)
    0 2 (by norm_num)).1

end Dandelifeon

namespace Dandelifeon

/-! ## Stagnation counting (C5) -/

theorem forage_fields {α β : Type} [LinearOrder β] (c : Colony α β)
    (b : Scout α β) (q : FlowerPatch α β) :
    (FlowerPatch.forage c b q).stagnation_counter = q.stagnation_counter ∧
    (FlowerPatch.forage c b q).neighbourhood = q.neighbourhood ∧
    (FlowerPatch.forage c b q).foragers = q.foragers := by
  unfold FlowerPatch.forage
  dsimp only
  split <;> exact ⟨rfl, rfl, rfl⟩

theorem local_search_fold_fields {α β : Type} [LinearOrder β] (c : Colony α β)
    (b : Scout α β) (l : List Nat) : ∀ q : FlowerPatch α β,
    ((l.foldl (fun p2 _ => FlowerPatch.forage c b p2) q).stagnation_counter
        = q.stagnation_counter) ∧
    ((l.foldl (fun p2 _ => FlowerPatch.forage c b p2) q).neighbourhood
        = q.neighbourhood) ∧
    ((l.foldl (fun p2 _ => FlowerPatch.forage c b p2) q).foragers
        = q.foragers) := by
  induction l with
  | nil => exact fun q => ⟨rfl, rfl, rfl⟩
  | cons a l ih =>
    intro q
    rw [List.foldl_cons]
    obtain ⟨h1, h2, h3⟩ := ih (FlowerPatch.forage c b q)
    obtain ⟨g1, g2, g3⟩ := forage_fields c b q
    exact ⟨h1.trans g1, h2.trans g2, h3.trans g3⟩

theorem local_search_fields {α β : Type} [LinearOrder β] (c : Colony α β)
    (p : FlowerPatch α β) (b : Scout α β) :
    ((FlowerPatch.local_search c p b).stagnation_counter
        = p.stagnation_counter) ∧
    ((FlowerPatch.local_search c p b).neighbourhood = p.neighbourhood) ∧
    ((FlowerPatch.local_search c p b).foragers = p.foragers) :=
  local_search_fold_fields c b (List.range p.foragers)
    { p with stagnation := true }

/-- C5 (amended): the stagnation counter is incremented exactly in
non-improving (stagnant) cycles while below the limit; an improving cycle
leaves it unchanged (local search never touches the counter, and
non-stagnant abandonment is the identity) — it is *not* reset to zero; once
the counter has reached the limit, the next stagnant cycle folds the
incumbent into the global best if strictly better and replaces the whole
neighborhood by a fresh randomly drawn one with counter zero and radius equal
to the initial patch radius. -/
theorem C5_stagnation {α β : Type} [LinearOrder β] (c : Colony α β)
    (stream : Nat → α) (p : FlowerPatch α β) (b : Scout α β) (k : Nat) :
    ((FlowerPatch.local_search c p b).stagnation_counter
        = p.stagnation_counter) ∧
    (p.stagnation = false → FlowerPatch.abandonment c stream p b k
        = (p, b, k)) ∧
    (p.stagnation = true → p.stagnation_counter < c.STAGNATION_LIMIT →
      FlowerPatch.abandonment c stream p b k
        = ({ p with stagnation_counter := p.stagnation_counter + 1 }, b, k)) ∧
    (p.stagnation = true → ¬ p.stagnation_counter < c.STAGNATION_LIMIT →
      FlowerPatch.abandonment c stream p b k
        = (FlowerPatch.new c (stream k),
           if p.scout.fitness < b.fitness then p.scout else b, k + 1)) ∧
    (FlowerPatch.new c (stream k)).stagnation_counter = 0 ∧
    (FlowerPatch.new c (stream k)).neighbourhood = c.FLOWER_PATCH_SIZE := by
  refine ⟨(local_search_fields c p b).1, ?_, ?_, ?_, rfl, rfl⟩
  · intro hs
    simp [FlowerPatch.abandonment, hs]
  · intro hs hcnt
    simp [FlowerPatch.abandonment, hs, hcnt]
  · intro hs hcnt
    simp [FlowerPatch.abandonment, hs, hcnt]

/-- Witness for C5 (amended) at a concrete fresh patch of `C5colony`. -/
theorem C5_stagnation_witness :
    (FlowerPatch.new C5colony 5).stagnation = true ∧
    ((FlowerPatch.new C5colony 5).stagnation_counter
      < C5colony.STAGNATION_LIMIT) ∧
    FlowerPatch.abandonment C5colony constStream5 (FlowerPatch.new C5colony 5)
        (Scout.with_solution C5colony 5) 0
      = ({ FlowerPatch.new C5colony 5 with
            stagnation_counter :=
              (FlowerPatch.new C5colony 5).stagnation_counter + 1 },
         Scout.with_solution C5colony 5, 0) :=
  ⟨rfl, by decide,
   (C5_stagnation C5colony constStream5 (FlowerPatch.new C5colony 5)
      (Scout.with_solution C5colony 5) 0).2.2.1 rfl (by decide)⟩

/-- C5 counterexample: in a run of `C5colony` the first cycle is stagnant
(the counter becomes 1) and the second cycle strictly improves the incumbent
(fitness drops from 5 to 4 and the stagnation flag is cleared), yet the
stagnation counter stays at 1 — the improving cycle does `not` reset it to
zero as the claim states: `promote` clears only the per-cycle flag and
`abandonment` skips a non-stagnant patch entirely, so the counter counts
non-improving cycles since the patch's creation, not consecutive ones. -/
theorem C5_counterexample :
    ((C5colony.runCycles constStream5 (C5colony.initState constStream5)
        1).patches.map
      (fun p => (p.scout.fitness, p.stagnation, p.stagnation_counter)))
      = [(5, true, 1)] ∧
    ((C5colony.runCycles constStream5 (C5colony.initState constStream5)
        2).patches.map
      (fun p => (p.scout.fitness, p.stagnation, p.stagnation_counter)))
      = [(4, false, 1)] :=
  ⟨by decide, by decide⟩

end Dandelifeon

namespace Dandelifeon

/-! ## Recruitment (C6) -/

theorem setForagers_getElem {α β : Type} (ps : List (FlowerPatch α β))
    (j n i : Nat) :
    (setForagers ps j n)[i]?
      = if i = j then (ps[i]?).map (fun p => { p with foragers := n })
        else ps[i]? := by
  unfold setForagers
  cases hj : ps[j]? with
  | none =>
    by_cases hij : i = j
    · rw [if_pos hij, hij, hj]
      rfl
    · rw [if_neg hij]
  | some p =>
    have hjl : j < ps.length := by
      rcases List.getElem?_eq_some_iff.1 hj with ⟨h1, _⟩
      exact h1
    rw [List.getElem?_set]
    by_cases hij : i = j
    · rw [if_pos (by omega : j = i), if_pos hjl, if_pos hij, hij, hj]
      rfl
    · rw [if_neg (by omega : ¬ j = i), if_neg hij]

theorem elite_fold_getElem {α β : Type} (v : Nat) :
    ∀ (m : Nat) (ps : List (FlowerPatch α β)) (i : Nat),
    ((List.range m).foldl (fun ps index => setForagers ps index v) ps)[i]?
      = if i < m then (ps[i]?).map (fun p => { p with foragers := v })
        else ps[i]? := by
  intro m
  induction m with
  | zero => intro ps i; simp
  | succ m ih =>
    intro ps i
    rw [List.range_succ, List.foldl_append, List.foldl_cons, List.foldl_nil,
      setForagers_getElem, ih]
    by_cases him : i = m
    · rw [if_pos him, if_neg (by omega), if_pos (by omega)]
    · rw [if_neg him]
      by_cases hlt : i < m
      · rw [if_pos hlt, if_pos (by omega)]
      · rw [if_neg hlt, if_neg (by omega)]

theorem best_fold_getElem {α β : Type} (v s : Nat) :
    ∀ (m : Nat) (ps : List (FlowerPatch α β)) (i : Nat),
    ((List.range' s m).foldl (fun ps index => setForagers ps index v) ps)[i]?
      = if s ≤ i ∧ i < s + m
        then (ps[i]?).map (fun p => { p with foragers := v })
        else ps[i]? := by
  intro m
  induction m with
  | zero =>
    intro ps i
    rw [show List.range' s 0 = [] from rfl, List.foldl_nil,
      if_neg (by omega : ¬(s ≤ i ∧ i < s + 0))]
  | succ m ih =>
    intro ps i
    rw [List.range'_concat, List.foldl_append, List.foldl_cons, List.foldl_nil,
      setForagers_getElem, ih]
    by_cases him : i = s + 1 * m
    · rw [if_pos him, if_neg (by omega), if_pos (by omega)]
    · rw [if_neg him]
      by_cases hin : s ≤ i ∧ i < s + m
      · rw [if_pos hin, if_pos (by omega)]
      · rw [if_neg hin, if_neg (by omega)]

/-- C6 (amended): after `waggle_dance`, each of the top `ELITE_SITES` patches
has exactly `ELITE_RECRUITS` recruited searchers and each of the next
`BEST_SITES - ELITE_SITES` has exactly `BEST_RECRUITS`; every other patch is
left exactly as it was before recruitment — its forager count is *not* set
to zero (it is zero only if the patch already had zero, e.g. when freshly
created). -/
theorem C6_recruitment {α β : Type} (c : Colony α β)
    (ps : List (FlowerPatch α β)) (hEB : c.ELITE_SITES ≤ c.BEST_SITES)
    (hlen : c.BEST_SITES ≤ ps.length) :
    (∀ i, i < c.ELITE_SITES →
      ((c.waggle_dance ps)[i]?).map FlowerPatch.foragers
        = some c.ELITE_RECRUITS) ∧
    (∀ i, c.ELITE_SITES ≤ i → i < c.BEST_SITES →
      ((c.waggle_dance ps)[i]?).map FlowerPatch.foragers
        = some c.BEST_RECRUITS) ∧
    (∀ i, c.BEST_SITES ≤ i → (c.waggle_dance ps)[i]? = ps[i]?) := by
  have hwd : ∀ i, (c.waggle_dance ps)[i]?
      = if c.ELITE_SITES ≤ i ∧ i < c.ELITE_SITES +
            (c.BEST_SITES - c.ELITE_SITES) then
          (((List.range c.ELITE_SITES).foldl
              (fun ps index => setForagers ps index c.ELITE_RECRUITS)
              ps)[i]?).map (fun p => { p with foragers := c.BEST_RECRUITS })
        else ((List.range c.ELITE_SITES).foldl
            (fun ps index => setForagers ps index c.ELITE_RECRUITS) ps)[i]? :=
    fun i => best_fold_getElem c.BEST_RECRUITS c.ELITE_SITES
      (c.BEST_SITES - c.ELITE_SITES) _ i
  refine ⟨?_, ?_, ?_⟩
  · intro i hi
    rw [hwd i, if_neg (by omega), elite_fold_getElem, if_pos hi,
      List.getElem?_eq_getElem (by omega)]
    rfl
  · intro i h1 h2
    rw [hwd i, if_pos (by omega), elite_fold_getElem, if_neg (by omega),
      List.getElem?_eq_getElem (by omega)]
    rfl
  · intro i hi
    rw [hwd i, if_neg (by omega), elite_fold_getElem, if_neg (by omega)]

/-- Witness for C6 (amended): the beyond-best clause at a concrete
population (the initial population of `C6colony`). -/
theorem C6_recruitment_witness :
    C6colony.ELITE_SITES ≤ C6colony.BEST_SITES ∧
    C6colony.BEST_SITES ≤ (C6colony.initState C6stream).patches.length ∧
    (C6colony.waggle_dance (C6colony.initState C6stream).patches)[1]?
      = (C6colony.initState C6stream).patches[1]? :=
  ⟨by decide, by decide,
   (C6_recruitment C6colony (C6colony.initState C6stream).patches (by decide)
      (by decide)).2.2 1 (by decide)⟩

/-- C6 counterexample: in the second cycle of a run of `C6colony` (sorted
ascending by fitness, recruitment applied), the patch at index 1 — beyond
`BEST_SITES = 1`, so the claim requires it to have exactly zero recruited
searchers — still carries the 5 searchers it was assigned in the first
cycle: `waggle_dance` never clears forager counts, and a previously-top
patch that gets outsorted keeps its old count. -/
theorem C6_counterexample :
    ((C6colony.cycleRecruited (C6colony.cycle C6stream
        (C6colony.initState C6stream))).patches.map
      (fun p => (p.scout.fitness, p.foragers))) = [(8, 5), (9, 5)] := by
  decide

end Dandelifeon

namespace Dandelifeon

/-! ## The radius floor (C4) -/

theorem shrinkStep_le (r : Nat) : shrinkStep r ≤ r := by
  unfold shrinkStep
  omega

theorem shrinkStep_pos (r : Nat) (h : 0 < r) : 0 < shrinkStep r := by
  unfold shrinkStep
  omega

theorem shrinkStep_fix (r : Nat) (h : r < 10) : shrinkStep r = r := by
  unfold shrinkStep
  omega

theorem shrinkIter_succ (r n : Nat) :
    shrinkIter r (n + 1) = shrinkStep (shrinkIter r n) := by
  induction n generalizing r with
  | zero => rfl
  | succ n ih =>
    show shrinkIter (shrinkStep r) (n + 1) = shrinkStep (shrinkIter r (n + 1))
    rw [ih (shrinkStep r)]
    rfl

theorem shrinkIter_pos (r : Nat) (h : 0 < r) : ∀ n, 0 < shrinkIter r n := by
  intro n
  induction n with
  | zero => exact h
  | succ n ih =>
    rw [shrinkIter_succ]
    exact shrinkStep_pos _ ih

theorem shrinkIter_anti (r : Nat) {j m : Nat} (h : j ≤ m) :
    shrinkIter r m ≤ shrinkIter r j := by
  induction m with
  | zero =>
    have hj : j = 0 := by omega
    rw [hj]
  | succ m ih =>
    rcases Nat.eq_or_lt_of_le h with he | hlt
    · rw [he]
    · calc shrinkIter r (m + 1) = shrinkStep (shrinkIter r m) :=
            shrinkIter_succ r m
        _ ≤ shrinkIter r m := shrinkStep_le _
        _ ≤ shrinkIter r j := ih (by omega)

theorem inv_new {α β : Type} (c : Colony α β) (d : α) :
    radiusInv c (FlowerPatch.new c d) :=
  ⟨Nat.zero_le _, 0, by omega, rfl⟩

theorem inv_local_search {α β : Type} [LinearOrder β] (c : Colony α β)
    (p : FlowerPatch α β) (b : Scout α β) (hp : radiusInv c p) :
    radiusInv c (FlowerPatch.local_search c p b) := by
  obtain ⟨h1, h2, _⟩ := local_search_fields c p b
  unfold radiusInv
  rw [h1, h2]
  exact hp

theorem inv_pipeline {α β : Type} [LinearOrder β] (c : Colony α β)
    (stream : Nat → α) (p : FlowerPatch α β) (b : Scout α β) (k : Nat)
    (hp : radiusInv c p) :
    radiusInv c
      (FlowerPatch.shrinking (FlowerPatch.abandonment c stream p b k).1) := by
  obtain ⟨hcnt, j, hj, hnb⟩ := hp
  by_cases hs : p.stagnation = true
  · by_cases hc : p.stagnation_counter < c.STAGNATION_LIMIT
    · have hab : (FlowerPatch.abandonment c stream p b k).1
          = { p with stagnation_counter := p.stagnation_counter + 1 } := by
        simp [FlowerPatch.abandonment, hs, hc]
      rw [hab]
      have hsh : FlowerPatch.shrinking
            { p with stagnation_counter := p.stagnation_counter + 1 }
          = { p with
              stagnation_counter := p.stagnation_counter + 1
              neighbourhood := shrinkStep p.neighbourhood } := by
        unfold FlowerPatch.shrinking
        rw [if_pos hs]
      rw [hsh]
      refine ⟨?_, j + 1, ?_, ?_⟩
      · show p.stagnation_counter + 1 ≤ c.STAGNATION_LIMIT
        omega
      · show j + 1 ≤ p.stagnation_counter + 1 + 1
        omega
      · show shrinkStep p.neighbourhood = _
        rw [hnb, ← shrinkIter_succ]
    · have hab : (FlowerPatch.abandonment c stream p b k).1
          = FlowerPatch.new c (stream k) := by
        simp [FlowerPatch.abandonment, hs, hc]
      rw [hab]
      have hsh : FlowerPatch.shrinking (FlowerPatch.new c (stream k))
          = { FlowerPatch.new c (stream k) with
              neighbourhood := shrinkStep c.FLOWER_PATCH_SIZE } := by
        unfold FlowerPatch.shrinking
        rw [if_pos
          (show (FlowerPatch.new c (stream k)).stagnation = true from rfl)]
        rfl
      rw [hsh]
      refine ⟨Nat.zero_le _, 1, ?_, ?_⟩
      · show (1 : Nat) ≤ 0 + 1
        omega
      · exact (shrinkIter_succ _ 0).symm
  · have hab : (FlowerPatch.abandonment c stream p b k).1 = p := by
      simp [FlowerPatch.abandonment, hs]
    rw [hab]
    have hsh : FlowerPatch.shrinking p = p := by
      unfold FlowerPatch.shrinking
      rw [if_neg hs]
    rw [hsh]
    exact ⟨hcnt, j, hj, hnb⟩

theorem inv_mem_set {α β : Type} (c : Colony α β)
    (ps : List (FlowerPatch α β)) (i : Nat) (v : FlowerPatch α β)
    (hps : ∀ p ∈ ps, radiusInv c p) (hv : radiusInv c v) :
    ∀ p ∈ ps.set i v, radiusInv c p := by
  intro p hp
  rcases List.mem_or_eq_of_mem_set hp with h | rfl
  · exact hps p h
  · exact hv

theorem inv_localPhase {α β : Type} [LinearOrder β] (c : Colony α β)
    (stream : Nat → α) (st : BeesState α β)
    (hst : ∀ p ∈ st.patches, radiusInv c p) :
    ∀ p ∈ (c.localPhase stream st).patches, radiusInv c p := by
  unfold Colony.localPhase
  generalize List.range c.BEST_SITES = l
  induction l generalizing st with
  | nil => exact hst
  | cons i l ih =>
    rw [List.foldl_cons]
    apply ih
    cases hpi : st.patches[i]? with
    | none => simpa [hpi] using hst
    | some p =>
      simp only [hpi]
      apply inv_mem_set c _ _ _ hst
      exact inv_pipeline c stream _ _ _
        (inv_local_search c p _ (hst p (List.getElem?_mem hpi)))

theorem inv_globalPhase {α β : Type} [LinearOrder β] (c : Colony α β)
    (stream : Nat → α) (st : BeesState α β)
    (hst : ∀ p ∈ st.patches, radiusInv c p) :
    ∀ p ∈ (c.globalPhase stream st).patches, radiusInv c p := by
  unfold Colony.globalPhase
  generalize List.range' c.BEST_SITES (c.N_SCOUTS - c.BEST_SITES) = l
  induction l generalizing st with
  | nil => exact hst
  | cons i l ih =>
    rw [List.foldl_cons]
    apply ih
    exact inv_mem_set c _ _ _ hst (inv_new c _)

theorem inv_setForagers {α β : Type} (c : Colony α β)
    (ps : List (FlowerPatch α β)) (j n : Nat)
    (hps : ∀ p ∈ ps, radiusInv c p) :
    ∀ p ∈ setForagers ps j n, radiusInv c p := by
  unfold setForagers
  cases hj : ps[j]? with
  | none => exact hps
  | some q =>
    intro p hp
    rcases List.mem_or_eq_of_mem_set hp with h | rfl
    · exact hps p h
    · exact hps q (List.getElem?_mem hj)

theorem inv_setForagers_fold {α β : Type} (c : Colony α β) (v : Nat)
    (l : List Nat) :
    ∀ ps : List (FlowerPatch α β), (∀ p ∈ ps, radiusInv c p) →
    ∀ p ∈ l.foldl (fun ps index => setForagers ps index v) ps,
      radiusInv c p := by
  induction l with
  | nil => exact fun ps hps => hps
  | cons i l ih =>
    intro ps hps
    rw [List.foldl_cons]
    exact ih _ (inv_setForagers c ps i v hps)

theorem inv_cycleRecruited {α β : Type} [LinearOrder β] (c : Colony α β)
    (st : BeesState α β) (hst : ∀ p ∈ st.patches, radiusInv c p) :
    ∀ p ∈ (c.cycleRecruited st).patches, radiusInv c p := by
  unfold Colony.cycleRecruited Colony.waggle_dance
  dsimp only
  apply inv_setForagers_fold
  apply inv_setForagers_fold
  intro p hp
  exact hst p ((List.perm_insertionSort _ st.patches).mem_iff.1 hp)

theorem inv_cycle {α β : Type} [LinearOrder β] (c : Colony α β)
    (stream : Nat → α) (st : BeesState α β)
    (hst : ∀ p ∈ st.patches, radiusInv c p) :
    ∀ p ∈ (c.cycle stream st).patches, radiusInv c p :=
  inv_globalPhase c stream _
    (inv_localPhase c stream _ (inv_cycleRecruited c st hst))

theorem inv_initState {α β : Type} [LinearOrder β] (c : Colony α β)
    (stream : Nat → α) :
    ∀ p ∈ (c.initState stream).patches, radiusInv c p := by
  unfold Colony.initState
  dsimp only
  intro p hp
  have hp' := (List.perm_insertionSort _ _).mem_iff.1 hp
  rcases List.mem_map.1 hp' with ⟨i, _, rfl⟩
  exact inv_new c _

theorem inv_runCycles {α β : Type} [LinearOrder β] (c : Colony α β)
    (stream : Nat → α) (n : Nat) :
    ∀ p ∈ (c.runCycles stream (c.initState stream) n).patches,
      radiusInv c p := by
  induction n with
  | zero => exact inv_initState c stream
  | succ n ih => exact inv_cycle c stream _ ih

/-- C4 (amended): `MINIMUM_RADIUS` is the stagnation-limit-fold iterate of
the truncating shrink map from the initial patch radius and is positive for
any positive initial radius; the shrink map is non-increasing and fixes
exactly the radii below 10.  The true runtime floor, however, is one shrink
*below* `MINIMUM_RADIUS`: in every run every patch radius (and hence every
radius passed to `explore`) is at least `shrinkIter FLOWER_PATCH_SIZE
(STAGNATION_LIMIT + 1)` — a freshly replaced patch is created with
`stagnation = true` and is therefore immediately shrunk once in its creation
cycle, so patches undergo up to `STAGNATION_LIMIT + 1` shrinks before
replacement. -/
theorem C4_minimum_radius {α β : Type} [LinearOrder β] (c : Colony α β)
    (stream : Nat → α) (n : Nat) (hpos : 0 < c.FLOWER_PATCH_SIZE) :
    c.MINIMUM_RADIUS = shrinkIter c.FLOWER_PATCH_SIZE c.STAGNATION_LIMIT ∧
    0 < c.MINIMUM_RADIUS ∧
    (∀ r, shrinkStep r ≤ r) ∧
    (∀ r, r < 10 → shrinkStep r = r) ∧
    (∀ p ∈ (c.runCycles stream (c.initState stream) n).patches,
      shrinkIter c.FLOWER_PATCH_SIZE (c.STAGNATION_LIMIT + 1)
          ≤ p.neighbourhood ∧
      0 < p.neighbourhood) := by
  refine ⟨rfl, shrinkIter_pos _ hpos _, shrinkStep_le,
    fun r h => shrinkStep_fix r h, ?_⟩
  intro p hp
  obtain ⟨hcnt, j, hj, hnb⟩ := inv_runCycles c stream n p hp
  constructor
  · rw [hnb]
    exact shrinkIter_anti _ (by omega)
  · rw [hnb]
    exact shrinkIter_pos _ hpos _

/-- Witness for C4 (amended) at `C4colony` after 3 cycles. -/
theorem C4_minimum_radius_witness :
    (0 < C4colony.FLOWER_PATCH_SIZE) ∧
    C4colony.MINIMUM_RADIUS
      = shrinkIter C4colony.FLOWER_PATCH_SIZE C4colony.STAGNATION_LIMIT ∧
    0 < C4colony.MINIMUM_RADIUS :=
  ⟨by decide,
   (C4_minimum_radius C4colony constStream5 3 (by decide)).1,
   (C4_minimum_radius C4colony constStream5 3 (by decide)).2.1⟩

/-- C4 counterexample: with initial radius 100 and stagnation limit 1,
`MINIMUM_RADIUS = 80` is *not* a stable floor — one further iteration of the
shrink formula gives 64 < 80 — and the run loop actually reaches radius 64:
after 3 cycles of `C4colony` the single patch has radius 64, which cycle 4's
local search passes to `explore`.  The `C4detect` colony runs the same
schedule but its `explore` returns the strictly better flower 0 whenever it
is invoked with a radius below 80; after 4 cycles its incumbent fitness is 0,
proving `explore` was called with a radius below `MINIMUM_RADIUS`. -/
theorem C4_counterexample :
    C4colony.MINIMUM_RADIUS = 80 ∧
    shrinkStep C4colony.MINIMUM_RADIUS = 64 ∧
    ((C4colony.runCycles constStream5 (C4colony.initState constStream5)
        3).patches.map FlowerPatch.neighbourhood) = [64] ∧
    ((C4detect.runCycles constStream5 (C4detect.initState constStream5)
        4).patches.map (fun p => p.scout.fitness)) = [0] :=
  ⟨by decide, by decide, by decide, by decide⟩

end Dandelifeon
